import Mathlib

/-!
Verification of the iterm-mcp session-addressing and automation-scripting layer.

Strings from the TypeScript sources are modelled as lists of characters
(`Str`).  The JavaScript string operations used by the code
(`split`, `join`, `trim`, `replace`, `toUpperCase`, `parseInt`) are given
executable models below, and each component (escaping module, key mapper,
output reader, session registry, window/tab creator) is translated from its
source file.
-/

set_option maxRecDepth 40000

/-- Character-list model of JavaScript strings. -/
abbrev Str := List Char

/-- The single-quote character, written by code point. -/
def squote : Char := Char.ofNat 39

/-- Model of the JavaScript whitespace class used by `String.prototype.trim`,
restricted to the ASCII whitespace characters that can occur in this
code base (space, tab, line feed, carriage return, vertical tab, form feed). -/
def isJSWhitespace (c : Char) : Bool :=
  c == ' ' || c == '\t' || c == '\n' || c == '\r' ||
  c == Char.ofNat 11 || c == Char.ofNat 12

/-- Model of `String.prototype.trim`: drop leading and trailing whitespace. -/
def trimJS (s : Str) : Str :=
  ((s.dropWhile isJSWhitespace).reverse.dropWhile isJSWhitespace).reverse

/-- Does `sep` occur as a contiguous block anywhere in `s`? -/
def hasOccur (sep : Str) : Str → Bool
  | [] => sep.isPrefixOf ([] : Str)
  | c :: rest => sep.isPrefixOf (c :: rest) || hasOccur sep rest

/-- Fuel-driven worker for `splitOnSep`.  With fuel at least the length of
the input it emits the chunks of the input delimited by `sep`, scanning left
to right, as `String.prototype.split` does. -/
def splitAux (sep : Str) : Nat → Str → Str → List Str
  | _, [], acc => [acc.reverse]
  | 0, s, acc => [acc.reverse ++ s]
  | fuel+1, c :: rest, acc =>
    if sep.isPrefixOf (c :: rest) then
      acc.reverse :: splitAux sep fuel ((c :: rest).drop sep.length) []
    else
      splitAux sep fuel rest (c :: acc)

/-- Model of `String.prototype.split` with a non-empty separator string. -/
def splitOnSep (sep s : Str) : List Str :=
  if sep = [] then [s] else splitAux sep s.length s []

/-- Model of `Array.prototype.join` with a separator string. -/
def joinSep (sep : Str) : List Str → Str
  | [] => []
  | [l] => l
  | l :: ls => l ++ sep ++ joinSep sep ls

/-- A separator is border-free when no proper nonempty prefix of it is also
a suffix of it; both separator tokens of the registry are border-free, which
rules out separator occurrences straddling a chunk boundary. -/
def borderFree (sep : Str) : Prop :=
  ∀ k < sep.length, 0 < k → sep.drop k ≠ sep.take (sep.length - k)

section ListFacts

theorem pfx_append_self (l t : Str) : l.isPrefixOf (l ++ t) = true := by
  induction l with
  | nil => simp [List.isPrefixOf]
  | cons c cs ih => simp [List.isPrefixOf, ih]

theorem eq_append_of_pfx {l m : Str} (h : l.isPrefixOf m = true) :
    ∃ t, m = l ++ t := by
  induction l generalizing m with
  | nil => exact ⟨m, rfl⟩
  | cons c cs ih =>
    cases m with
    | nil => simp [List.isPrefixOf] at h
    | cons d ds =>
      simp only [List.isPrefixOf, Bool.and_eq_true, beq_iff_eq] at h
      obtain ⟨t, ht⟩ := ih h.2
      exact ⟨t, by simp [h.1, ht]⟩

theorem hasOccur_of_piece {sep b1 b2 : Str} (h : sep.isPrefixOf b2 = true)
    (hsep : sep ≠ []) : hasOccur sep (b1 ++ b2) = true := by
  induction b1 with
  | nil =>
    cases b2 with
    | nil =>
      obtain ⟨t, ht⟩ := eq_append_of_pfx h
      cases sep with
      | nil => exact absurd rfl hsep
      | cons c cs => simp at ht
    | cons c rest => simp [hasOccur, h]
  | cons x b1' ih => simp [hasOccur, ih]

theorem pfx_false_of_no_occur {sep b : Str} (hocc : hasOccur sep b = false)
    (hsep : sep ≠ []) :
    ∀ b1 b2, b1 ++ b2 = b → b2 ≠ [] → sep.isPrefixOf b2 = false := by
  intro b1 b2 hsplit hne
  by_contra hcon
  have htrue : sep.isPrefixOf b2 = true := by
    cases h : sep.isPrefixOf b2 with
    | false => exact absurd h hcon
    | true => rfl
  have := @hasOccur_of_piece sep b1 b2 htrue hsep
  rw [hsplit, hocc] at this
  exact Bool.false_ne_true this

theorem exists_piece_of_hasOccur {sep b : Str} (h : hasOccur sep b = true) :
    ∃ b1 b2, b1 ++ b2 = b ∧ sep.isPrefixOf b2 = true := by
  induction b with
  | nil => exact ⟨[], [], rfl, h⟩
  | cons c rest ih =>
    simp only [hasOccur, Bool.or_eq_true] at h
    cases h with
    | inl h => exact ⟨[], c :: rest, rfl, h⟩
    | inr h =>
      obtain ⟨b1, b2, hsplit, hpfx⟩ := ih h
      exact ⟨c :: b1, b2, by simp [hsplit], hpfx⟩

theorem head_mem_of_hasOccur {c : Char} {cs b : Str}
    (h : hasOccur (c :: cs) b = true) : c ∈ b := by
  obtain ⟨b1, b2, hsplit, hpfx⟩ := exists_piece_of_hasOccur h
  obtain ⟨t, ht⟩ := eq_append_of_pfx hpfx
  subst hsplit
  rw [ht]
  simp

end ListFacts

section SplitFacts

theorem splitAux_fuel (sep : Str) (hsep : sep ≠ []) :
    ∀ f1 s acc f2, s.length ≤ f1 → s.length ≤ f2 →
      splitAux sep f1 s acc = splitAux sep f2 s acc := by
  intro f1
  induction f1 with
  | zero =>
    intro s acc f2 h1 _
    have : s = [] := List.length_eq_zero.mp (Nat.le_zero.mp h1)
    subst this
    cases f2 <;> rfl
  | succ n ih =>
    intro s acc f2 h1 h2
    cases s with
    | nil => cases f2 <;> rfl
    | cons c rest =>
      cases f2 with
      | zero => simp at h2
      | succ m =>
        have hsl : 0 < sep.length := List.length_pos.mpr hsep
        simp only [splitAux]
        by_cases hp : sep.isPrefixOf (c :: rest) = true
        · simp only [hp, if_true]
          have hlen : ((c :: rest).drop sep.length).length ≤ n := by
            simp only [List.length_drop, List.length_cons]
            simp only [List.length_cons] at h1
            omega
          have hlen2 : ((c :: rest).drop sep.length).length ≤ m := by
            simp only [List.length_drop, List.length_cons]
            simp only [List.length_cons] at h2
            omega
          rw [ih _ _ _ hlen hlen2]
        · simp only [Bool.not_eq_true] at hp
          simp only [hp, Bool.false_eq_true, if_false]
          have hlen : rest.length ≤ n := by
            simp only [List.length_cons] at h1; omega
          have hlen2 : rest.length ≤ m := by
            simp only [List.length_cons] at h2; omega
          exact ih _ _ _ hlen hlen2

theorem splitAux_no_occur (sep : Str) (hsep : sep ≠ []) :
    ∀ s acc fuel, s.length ≤ fuel → hasOccur sep s = false →
      splitAux sep fuel s acc = [acc.reverse ++ s] := by
  intro s
  induction s with
  | nil =>
    intro acc fuel _ _
    cases fuel <;> simp [splitAux]
  | cons c rest ih =>
    intro acc fuel hfuel hocc
    cases fuel with
    | zero => simp at hfuel
    | succ n =>
      simp only [hasOccur, Bool.or_eq_false_iff] at hocc
      simp only [splitAux, hocc.1, Bool.false_eq_true, if_false]
      have : rest.length ≤ n := by
        simp only [List.length_cons] at hfuel; omega
      rw [ih (c :: acc) n this hocc.2]
      simp

theorem splitAux_emit (sep : Str) (hsep : sep ≠ []) :
    ∀ b rest acc fuel, (b ++ sep ++ rest).length ≤ fuel →
      (∀ b1 b2, b1 ++ b2 = b → b2 ≠ [] →
        sep.isPrefixOf (b2 ++ sep ++ rest) = false) →
      splitAux sep fuel (b ++ sep ++ rest) acc =
        (acc.reverse ++ b) :: splitAux sep rest.length rest [] := by
  intro b
  induction b with
  | nil =>
    intro rest acc fuel hfuel _
    simp only [List.nil_append] at *
    obtain ⟨d, sep', hd⟩ : ∃ d sep', sep = d :: sep' := by
      cases sep with
      | nil => exact absurd rfl hsep
      | cons d sep' => exact ⟨d, sep', rfl⟩
    cases fuel with
    | zero =>
      exfalso
      rw [hd] at hfuel
      simp at hfuel
    | succ n =>
      have hshape : sep ++ rest = d :: (sep' ++ rest) := by rw [hd]; rfl
      rw [hshape]
      simp only [splitAux]
      have hpfx : sep.isPrefixOf (d :: (sep' ++ rest)) = true := by
        rw [← hshape]; exact pfx_append_self sep rest
      simp only [hpfx, if_true]
      have hdrop : (d :: (sep' ++ rest)).drop sep.length = rest := by
        rw [← hshape]
        have := List.drop_left sep rest
        simpa using this
      rw [hdrop]
      have hlen : rest.length ≤ n := by
        rw [hshape] at hfuel
        simp only [List.length_cons, List.length_append] at hfuel ⊢
        omega
      rw [splitAux_fuel sep hsep n rest [] rest.length hlen (Nat.le_refl _)]
      simp
  | cons x b' ih =>
    intro rest acc fuel hfuel hmid
    have hne : (x :: b') ≠ ([] : Str) := by simp
    have hpfx : sep.isPrefixOf ((x :: b') ++ sep ++ rest) = false :=
      hmid [] (x :: b') rfl hne
    have hshape : (x :: b') ++ sep ++ rest = x :: (b' ++ sep ++ rest) := by simp
    cases fuel with
    | zero =>
      exfalso
      simp at hfuel
    | succ n =>
      rw [hshape]
      simp only [splitAux]
      rw [hshape] at hpfx
      simp only [hpfx, Bool.false_eq_true, if_false]
      have hlen : (b' ++ sep ++ rest).length ≤ n := by
        rw [hshape] at hfuel
        simp only [List.length_cons] at hfuel
        omega
      have hmid' : ∀ b1 b2, b1 ++ b2 = b' → b2 ≠ [] →
          sep.isPrefixOf (b2 ++ sep ++ rest) = false := by
        intro b1 b2 hsplit hne2
        exact hmid (x :: b1) b2 (by simp [hsplit]) hne2
      rw [ih rest (x :: acc) n hlen hmid']
      simp

/-- A border-free separator that does not occur inside `b` cannot occur
anywhere in `b ++ sep ++ rest` before the explicit `sep`. -/
theorem no_mid_occur (sep : Str) (hBF : borderFree sep) (hsep : sep ≠ [])
    (b rest : Str) (hocc : hasOccur sep b = false) :
    ∀ b1 b2, b1 ++ b2 = b → b2 ≠ [] →
      sep.isPrefixOf (b2 ++ sep ++ rest) = false := by
  intro b1 b2 hsplit hne
  by_contra hcon
  have htrue : sep.isPrefixOf (b2 ++ sep ++ rest) = true := by
    cases h : sep.isPrefixOf (b2 ++ sep ++ rest) with
    | false => exact absurd h hcon
    | true => rfl
  obtain ⟨t, ht0⟩ := eq_append_of_pfx htrue
  have ht : b2 ++ (sep ++ rest) = sep ++ t := by
    rw [← List.append_assoc]; exact ht0
  by_cases hlen : sep.length ≤ b2.length
  · -- the occurrence fits inside b2, contradicting hocc
    have e0 : sep.length - b2.length = 0 := by omega
    have h1 := congrArg (List.take sep.length) ht
    rw [List.take_append_eq_append_take, e0, List.take_zero, List.append_nil,
      List.take_left] at h1
    -- h1 : b2.take sep.length = sep
    have hb2 : b2 = sep ++ b2.drop sep.length := by
      conv_lhs => rw [← List.take_append_drop sep.length b2]
      rw [h1]
    have hpfx2 : sep.isPrefixOf b2 = true := by
      rw [hb2]; exact pfx_append_self sep _
    have := pfx_false_of_no_occur hocc hsep b1 b2 hsplit hne
    rw [this] at hpfx2
    exact Bool.false_ne_true hpfx2
  · -- the occurrence straddles the boundary: extract a border of sep
    push_neg at hlen
    have hb2len : 0 < b2.length := List.length_pos.mpr hne
    have e0 : b2.length - sep.length = 0 := by omega
    have h2 := congrArg (List.take b2.length) ht
    rw [List.take_left, List.take_append_eq_append_take, e0, List.take_zero,
      List.append_nil] at h2
    -- h2 : b2 = sep.take b2.length
    have h3 := congrArg (List.drop b2.length) ht
    rw [List.drop_left, List.drop_append_eq_append_drop, e0, List.drop_zero] at h3
    -- h3 : sep ++ rest = sep.drop b2.length ++ t
    have hd : (sep.drop b2.length).length = sep.length - b2.length := by
      simp [List.length_drop]
    have e1 : sep.length - b2.length - sep.length = 0 := by omega
    have h4 := congrArg (List.take (sep.length - b2.length)) h3
    rw [List.take_append_eq_append_take, e1, List.take_zero, List.append_nil,
      List.take_left' hd] at h4
    -- h4 : sep.take (sep.length - b2.length) = sep.drop b2.length
    exact hBF b2.length hlen hb2len h4.symm

/-- Splitting a separator-interleaved join recovers the chunk list. -/
theorem splitJoin (sep : Str) (hsep : sep ≠ []) (hBF : borderFree sep) :
    ∀ ls : List Str, ls ≠ [] → (∀ l ∈ ls, hasOccur sep l = false) →
      splitOnSep sep (joinSep sep ls) = ls := by
  intro ls
  induction ls with
  | nil => intro h; exact absurd rfl h
  | cons l ls' ih =>
    intro _ hocc
    cases ls' with
    | nil =>
      simp only [joinSep, splitOnSep, hsep, if_false]
      rw [splitAux_no_occur sep hsep l [] l.length (Nat.le_refl _)
        (hocc l (by simp))]
      simp
    | cons m ms =>
      have hjoin : joinSep sep (l :: m :: ms) = l ++ sep ++ joinSep sep (m :: ms) := rfl
      simp only [splitOnSep, hsep, if_false, hjoin]
      rw [splitAux_emit sep hsep l (joinSep sep (m :: ms)) [] _ (Nat.le_refl _)
        (no_mid_occur sep hBF hsep l _ (hocc l (by simp)))]
      simp only [List.reverse_nil, List.nil_append]
      have := ih (by simp) (by intro x hx; exact hocc x (by simp [hx]))
      simp only [splitOnSep, hsep, if_false] at this
      rw [this]

/-- Splitting a join in which every chunk carries a trailing separator
produces the chunks followed by one empty block. -/
theorem splitJoinTrail (sep : Str) (hsep : sep ≠ []) (hBF : borderFree sep) :
    ∀ bs : List Str, (∀ b ∈ bs, hasOccur sep b = false) →
      splitOnSep sep ((bs.map (· ++ sep)).flatten) = bs ++ [[]] := by
  intro bs
  induction bs with
  | nil =>
    intro _
    simp [splitOnSep, hsep, splitAux]
  | cons b bs' ih =>
    intro hocc
    have hshape : ((b :: bs').map (· ++ sep)).flatten =
        b ++ sep ++ (bs'.map (· ++ sep)).flatten := by
      simp [List.append_assoc]
    simp only [splitOnSep, hsep, if_false, hshape]
    rw [splitAux_emit sep hsep b _ [] _ (Nat.le_refl _)
      (no_mid_occur sep hBF hsep b _ (hocc b (by simp)))]
    simp only [List.reverse_nil, List.nil_append]
    have := ih (by intro x hx; exact hocc x (by simp [hx]))
    simp only [splitOnSep, hsep, if_false] at this
    rw [this]
    simp

end SplitFacts

section TrimFacts

theorem trimJS_nil : trimJS [] = [] := rfl

theorem trimJS_ne_nil_of_mem {c : Char} {s : Str} (hc : c ∈ s)
    (hw : isJSWhitespace c = false) : trimJS s ≠ [] := by
  intro hnil
  unfold trimJS at hnil
  rw [List.reverse_eq_nil_iff, List.dropWhile_eq_nil_iff] at hnil
  have hmem : c ∈ s.dropWhile isJSWhitespace ∨ c ∈ s.takeWhile isJSWhitespace := by
    rcases List.mem_append.mp
      ((List.takeWhile_append_dropWhile isJSWhitespace s) ▸ hc) with h | h
    · exact Or.inr h
    · exact Or.inl h
  cases hmem with
  | inl h =>
    have := hnil c (List.mem_reverse.mpr h)
    rw [hw] at this
    exact Bool.false_ne_true this
  | inr h =>
    have := List.mem_takeWhile_imp h
    rw [hw] at this
    exact Bool.false_ne_true this

theorem trimJS_eq_nil_of_all {s : Str} (h : ∀ c ∈ s, isJSWhitespace c = true) :
    trimJS s = [] := by
  unfold trimJS
  have h1 : s.dropWhile isJSWhitespace = [] := List.dropWhile_eq_nil_iff.mpr h
  rw [h1]
  rfl

end TrimFacts

section Numerals

/-- Fuel-driven decimal rendering of a natural number (most significant digit
first), modelling how a number is coerced to text. -/
def natToDecGo : Nat → Nat → Str → Str
  | 0, _, acc => acc
  | fuel+1, n, acc =>
    if n < 10 then Nat.digitChar n :: acc
    else natToDecGo fuel (n / 10) (Nat.digitChar (n % 10) :: acc)

/-- Decimal rendering of a natural number. -/
def natToDec (n : Nat) : Str := natToDecGo (n + 1) n []

/-- Decimal rendering of an integer, with a leading minus sign when negative,
modelling JavaScript number-to-string conversion for integral values
(and the AppleScript coercion of an integer into text). -/
def intToDec (k : Int) : Str :=
  if k < 0 then '-' :: natToDec k.natAbs else natToDec k.toNat

/-- Accumulating decimal scan: consume leading digits, stop at the first
non-digit, as `parseInt` does after sign handling. -/
def parseDigitsAcc : Str → Nat → Nat
  | [], acc => acc
  | c :: cs, acc =>
    if c.isDigit then parseDigitsAcc cs (acc * 10 + (c.toNat - 48)) else acc

/-- Does the string start with a decimal digit? -/
def headIsDigit : Str → Bool
  | [] => false
  | c :: _ => c.isDigit

/-- Model of JavaScript `parseInt(s, 10)`: skip whitespace, read an optional
sign and then the longest digit prefix; `none` models `NaN`. -/
def parseIntJS (s : Str) : Option Int :=
  match s.dropWhile isJSWhitespace with
  | [] => none
  | c :: rest =>
    if c = '-' then
      if headIsDigit rest then some (-(parseDigitsAcc rest 0 : Int)) else none
    else if c = '+' then
      if headIsDigit rest then some ((parseDigitsAcc rest 0 : Int)) else none
    else if c.isDigit then some ((parseDigitsAcc (c :: rest) 0 : Int))
    else none

theorem digitChar_isDigit {m : Nat} (h : m < 10) :
    (Nat.digitChar m).isDigit = true := by
  interval_cases m <;> decide

theorem digitChar_val {m : Nat} (h : m < 10) :
    (Nat.digitChar m).toNat - 48 = m := by
  interval_cases m <;> decide

theorem parseDigitsAcc_natToDecGo :
    ∀ fuel n accS a, n < 10 ^ fuel →
      ∃ k, parseDigitsAcc (natToDecGo fuel n accS) a =
        parseDigitsAcc accS (a * 10 ^ k + n) := by
  intro fuel
  induction fuel with
  | zero =>
    intro n accS a hn
    simp only [pow_zero, Nat.lt_one_iff] at hn
    subst hn
    exact ⟨0, by simp [natToDecGo]⟩
  | succ f ih =>
    intro n accS a hn
    by_cases h10 : n < 10
    · refine ⟨1, ?_⟩
      simp only [natToDecGo, h10, if_true, parseDigitsAcc,
        digitChar_isDigit h10, if_true, digitChar_val h10]
      norm_num
    · have hdiv : n / 10 < 10 ^ f := by
        rw [Nat.div_lt_iff_lt_mul (by norm_num)]
        calc n < 10 ^ (f + 1) := hn
        _ = 10 ^ f * 10 := by ring
      obtain ⟨k, hk⟩ := ih (n / 10) (Nat.digitChar (n % 10) :: accS) a hdiv
      refine ⟨k + 1, ?_⟩
      simp only [natToDecGo, h10, if_false]
      rw [hk]
      have hm : n % 10 < 10 := Nat.mod_lt _ (by norm_num)
      simp only [parseDigitsAcc, digitChar_isDigit hm, if_true, digitChar_val hm]
      congr 1
      have := Nat.div_add_mod n 10
      ring_nf
      omega

theorem natToDecGo_head :
    ∀ fuel n accS, 0 < fuel →
      ∃ d rest, natToDecGo fuel n accS = d :: rest ∧ d.isDigit = true := by
  intro fuel
  induction fuel with
  | zero => intro n accS h; omega
  | succ f ih =>
    intro n accS _
    by_cases h10 : n < 10
    · exact ⟨Nat.digitChar n, accS, by simp [natToDecGo, h10], digitChar_isDigit h10⟩
    · simp only [natToDecGo, h10, if_false]
      cases f with
      | zero =>
        refine ⟨Nat.digitChar (n % 10), accS, rfl, ?_⟩
        exact digitChar_isDigit (Nat.mod_lt _ (by norm_num))
      | succ f' => exact ih (n / 10) _ (Nat.succ_pos _)

theorem parseDigitsAcc_natToDec (n : Nat) :
    parseDigitsAcc (natToDec n) 0 = n := by
  have hn : n < 10 ^ (n + 1) := by
    calc n < 10 ^ n := Nat.lt_pow_self (by norm_num) n
    _ ≤ 10 ^ (n + 1) := Nat.pow_le_pow_right (by norm_num) (Nat.le_succ n)
  obtain ⟨k, hk⟩ := parseDigitsAcc_natToDecGo (n + 1) n [] 0 hn
  simp only [natToDec, hk, parseDigitsAcc]
  omega

theorem ws_of_digit {c : Char} (h : c.isDigit = true) :
    isJSWhitespace c = false := by
  by_contra hcon
  have hws : isJSWhitespace c = true := by
    cases hx : isJSWhitespace c with
    | false => exact absurd hx hcon
    | true => rfl
  simp only [isJSWhitespace, Bool.or_eq_true, beq_iff_eq] at hws
  rcases hws with ((((h1 | h1) | h1) | h1) | h1) | h1 <;> subst h1 <;> simp at h

theorem natToDec_shape (n : Nat) :
    ∃ d rest, natToDec n = d :: rest ∧ d.isDigit = true :=
  natToDecGo_head (n + 1) n [] (Nat.succ_pos _)

theorem parseIntJS_natToDec (n : Nat) : parseIntJS (natToDec n) = some (n : Int) := by
  obtain ⟨d, rest, hshape, hdig⟩ := natToDec_shape n
  have hnw : isJSWhitespace d = false := ws_of_digit hdig
  have hdm : d ≠ '-' := by intro h; subst h; simp at hdig
  have hdp : d ≠ '+' := by intro h; subst h; simp at hdig
  have hdrop : (natToDec n).dropWhile isJSWhitespace = d :: rest := by
    rw [hshape, List.dropWhile_cons, hnw]
    simp
  simp only [parseIntJS, hdrop, hdm, if_false, hdp, hdig, if_true]
  rw [← hshape, parseDigitsAcc_natToDec]

theorem parseIntJS_intToDec (k : Int) : parseIntJS (intToDec k) = some k := by
  by_cases hneg : k < 0
  · simp only [intToDec, hneg, if_true]
    obtain ⟨d, rest, hshape, hdig⟩ := natToDec_shape k.natAbs
    have hnw : isJSWhitespace ('-') = false := by decide
    have hdrop : ('-' :: natToDec k.natAbs).dropWhile isJSWhitespace =
        '-' :: natToDec k.natAbs := by
      rw [List.dropWhile_cons, hnw]
      simp
    have hhead : headIsDigit (natToDec k.natAbs) = true := by
      rw [hshape]; exact hdig
    simp only [parseIntJS, hdrop, if_true, hhead]
    rw [parseDigitsAcc_natToDec]
    congr 1
    have : ((k.natAbs : Int)) = -k := Int.ofNat_natAbs_of_nonpos (le_of_lt hneg)
    omega
  · simp only [intToDec, hneg, if_false]
    rw [parseIntJS_natToDec]
    congr 1
    exact Int.toNat_of_nonneg (not_lt.mp hneg)

end Numerals

section Escaping

/-- First pass of `escapeForAppleScriptString`: `.replace(/\\/g, '\\')`,
doubling every backslash. -/
def escBackslash (s : Str) : Str :=
  s.flatMap fun c => if c = '\\' then ['\\', '\\'] else [c]

/-- Second pass of `escapeForAppleScriptString`: `.replace(/"/g, '\\"')`,
escaping every double quote. -/
def escQuote (s : Str) : Str :=
  s.flatMap fun c => if c = '"' then ['\\', '"'] else [c]

/-- Model of `escapeForAppleScriptString` from `src/utils/escaping.ts`:
backslashes are doubled first, then double quotes are escaped. -/
def escapeForAppleScriptString (s : Str) : Str := escQuote (escBackslash s)

/-- Per-character effect of the two replacement passes. -/
def asEscChar (c : Char) : Str :=
  if c = '\\' then ['\\', '\\'] else if c = '"' then ['\\', '"'] else [c]

/-- Model of `escapeForShellSingleQuote` from `src/utils/escaping.ts`:
`.replace(/'/g, "'\\''")`, replacing every single quote by the
quote-backslash-quote-quote sequence. -/
def escapeForShellSingleQuote (s : Str) : Str :=
  s.flatMap fun c => if c = squote then [squote, '\\', squote, squote] else [c]

/-- Model of `buildOsascriptCommand` from `src/utils/escaping.ts`: wrap the
shell-escaped script in single quotes after `osascript -e `. -/
def buildOsascriptCommand (script : Str) : Str :=
  ("osascript -e ").data ++ [squote] ++ escapeForShellSingleQuote script ++ [squote]

/-- Interpreter for the AppleScript string-literal context: scan up to the
first unescaped double quote, decoding backslash escapes; returns the decoded
literal content and the text following the closing quote. -/
def readStringLiteral : Str → Option (Str × Str)
  | [] => none
  | c :: rest =>
    if c = '"' then some ([], rest)
    else if c = '\\' then
      match rest with
      | [] => none
      | d :: rest2 => (readStringLiteral rest2).map fun p => (d :: p.1, p.2)
    else (readStringLiteral rest).map fun p => (c :: p.1, p.2)

/-- Worker for the shell-word interpreter: `inQuote` tells whether the scan
is inside a single-quoted segment.  Outside quotes a backslash escapes the
next character, a single quote opens a quoted segment and whitespace ends
the word (so an input that word-splits is rejected); inside quotes every
character is literal until the closing quote. -/
def shellParseAux : Nat → Bool → Str → Option Str
  | _, false, [] => some []
  | _, true, [] => none
  | 0, _, _ :: _ => none
  | fuel+1, false, c :: rest =>
    if c = squote then shellParseAux fuel true rest
    else if c = '\\' then
      match rest with
      | [] => none
      | d :: rest2 => (shellParseAux fuel false rest2).map (d :: ·)
    else if isJSWhitespace c then none
    else (shellParseAux fuel false rest).map (c :: ·)
  | fuel+1, true, c :: rest =>
    if c = squote then shellParseAux fuel false rest
    else (shellParseAux fuel true rest).map (c :: ·)

/-- Interpreter for one shell word, starting outside quotes. -/
def shellParseWord (s : Str) : Option Str := shellParseAux s.length false s

theorem escBackslash_cons (c : Char) (s : Str) :
    escBackslash (c :: s) = (if c = '\\' then ['\\', '\\'] else [c]) ++ escBackslash s := by
  simp [escBackslash]

theorem escQuote_append (a b : Str) : escQuote (a ++ b) = escQuote a ++ escQuote b := by
  simp [escQuote]

theorem escapeForAppleScriptString_flatMap (s : Str) :
    escapeForAppleScriptString s = s.flatMap asEscChar := by
  induction s with
  | nil => rfl
  | cons c rest ih =>
    unfold escapeForAppleScriptString at *
    rw [escBackslash_cons, escQuote_append, ih, List.flatMap_cons]
    by_cases hb : c = '\\'
    · subst hb
      rw [if_pos rfl]
      rfl
    · by_cases hq : c = '"'
      · subst hq
        rw [if_neg hb]
        simp [asEscChar, escQuote]
      · rw [if_neg hb]
        simp [asEscChar, escQuote, hb, hq]

theorem rsl_quote (r : Str) : readStringLiteral ('"' :: r) = some ([], r) := by
  rw [readStringLiteral.eq_def]
  simp

theorem rsl_esc (d : Char) (xs : Str) :
    readStringLiteral ('\\' :: d :: xs) =
      (readStringLiteral xs).map fun p => (d :: p.1, p.2) := by
  rw [readStringLiteral.eq_def]
  simp

theorem rsl_plain {c : Char} (hq : c ≠ '"') (hb : c ≠ '\\') (xs : Str) :
    readStringLiteral (c :: xs) = (readStringLiteral xs).map fun p => (c :: p.1, p.2) := by
  rw [readStringLiteral.eq_def]
  simp [hq, hb]

/-- Decoding an escaped string out of a literal context recovers the original
text exactly, and resumes right after the template's closing quote. -/
theorem readStringLiteral_escaped (s r : Str) :
    readStringLiteral (escapeForAppleScriptString s ++ '"' :: r) = some (s, r) := by
  rw [escapeForAppleScriptString_flatMap]
  induction s with
  | nil => simp [rsl_quote]
  | cons c rest ih =>
    rw [List.flatMap_cons]
    by_cases hb : c = '\\'
    · subst hb
      rw [show asEscChar '\\' = ['\\', '\\'] from rfl]
      rw [show ['\\', '\\'] ++ rest.flatMap asEscChar ++ '"' :: r =
        '\\' :: '\\' :: (rest.flatMap asEscChar ++ '"' :: r) by simp]
      rw [rsl_esc, ih]
      rfl
    · by_cases hq : c = '"'
      · subst hq
        rw [show asEscChar '"' = ['\\', '"'] by simp [asEscChar]]
        rw [show ['\\', '"'] ++ rest.flatMap asEscChar ++ '"' :: r =
          '\\' :: '"' :: (rest.flatMap asEscChar ++ '"' :: r) by simp]
        rw [rsl_esc, ih]
        rfl
      · rw [show asEscChar c = [c] by simp [asEscChar, hb, hq]]
        rw [show [c] ++ rest.flatMap asEscChar ++ '"' :: r =
          c :: (rest.flatMap asEscChar ++ '"' :: r) by simp]
        rw [rsl_plain hq hb, ih]
        rfl

theorem spa_false_nil (f : Nat) : shellParseAux f false [] = some [] := by
  cases f <;> rfl

theorem spa_open (f : Nat) (rest : Str) :
    shellParseAux (f + 1) false (squote :: rest) = shellParseAux f true rest := by
  rw [shellParseAux.eq_def]
  simp

theorem spa_bs (f : Nat) (d : Char) (rest2 : Str) :
    shellParseAux (f + 1) false ('\\' :: d :: rest2) =
      (shellParseAux f false rest2).map (d :: ·) := by
  rw [shellParseAux.eq_def]
  simp [squote, Char.ofNat]

theorem spa_close (f : Nat) (rest : Str) :
    shellParseAux (f + 1) true (squote :: rest) = shellParseAux f false rest := by
  rw [shellParseAux.eq_def]
  simp

theorem spa_in {c : Char} (hc : c ≠ squote) (f : Nat) (rest : Str) :
    shellParseAux (f + 1) true (c :: rest) =
      (shellParseAux f true rest).map (c :: ·) := by
  rw [shellParseAux.eq_def]
  simp [hc]

theorem shellParseAux_escaped :
    ∀ s fuel, (escapeForShellSingleQuote s).length + 1 ≤ fuel →
      shellParseAux fuel true (escapeForShellSingleQuote s ++ [squote]) = some s := by
  intro s
  induction s with
  | nil =>
    intro fuel hfuel
    obtain ⟨f, rfl⟩ : ∃ f, fuel = f + 1 := ⟨fuel - 1, by omega⟩
    show shellParseAux (f + 1) true (escapeForShellSingleQuote [] ++ [squote]) = some []
    rw [show escapeForShellSingleQuote [] ++ [squote] = squote :: ([] : Str) from rfl]
    rw [spa_close, spa_false_nil]
  | cons c rest ih =>
    intro fuel hfuel
    by_cases hq : c = squote
    · subst hq
      have hshape : escapeForShellSingleQuote (squote :: rest) =
          squote :: '\\' :: squote :: squote :: escapeForShellSingleQuote rest := by
        simp [escapeForShellSingleQuote]
      rw [hshape] at hfuel ⊢
      simp only [List.length_cons] at hfuel
      obtain ⟨f1, rfl⟩ : ∃ f1, fuel = f1 + 1 + 1 + 1 + 1 := ⟨fuel - 4, by omega⟩
      rw [show squote :: '\\' :: squote :: squote :: escapeForShellSingleQuote rest ++ [squote]
        = squote :: ('\\' :: squote :: (squote :: (escapeForShellSingleQuote rest ++ [squote])))
        by simp]
      rw [spa_close, spa_bs, spa_open]
      rw [ih (f1 + 1) (by omega)]
      rfl
    · have hshape : escapeForShellSingleQuote (c :: rest) =
          c :: escapeForShellSingleQuote rest := by
        simp [escapeForShellSingleQuote, hq]
      rw [hshape] at hfuel ⊢
      simp only [List.length_cons] at hfuel
      obtain ⟨f1, rfl⟩ : ∃ f1, fuel = f1 + 1 := ⟨fuel - 1, by omega⟩
      rw [show c :: escapeForShellSingleQuote rest ++ [squote]
        = c :: (escapeForShellSingleQuote rest ++ [squote]) by simp]
      rw [spa_in hq, ih f1 (by omega)]
      rfl

/-- Substituting the shell-escaped text between single quotes yields one
shell word that decodes to exactly the original string. -/
theorem shellParseWord_escaped (s : Str) :
    shellParseWord (squote :: escapeForShellSingleQuote s ++ [squote]) = some s := by
  unfold shellParseWord
  rw [show (squote :: escapeForShellSingleQuote s ++ [squote]).length =
    (escapeForShellSingleQuote s).length + 1 + 1 by simp]
  rw [show squote :: escapeForShellSingleQuote s ++ [squote] =
    squote :: (escapeForShellSingleQuote s ++ [squote]) by simp]
  rw [spa_open]
  exact shellParseAux_escaped s _ (Nat.le_refl _)

end Escaping

section KeyMapper

/-- Map of special key names to their ASCII codes, from
`src/SendControlCharacter.ts`, in source order. -/
def SPECIAL_KEYS : List (Str × Nat) :=
  [(("ENTER").data, 13), (("RETURN").data, 13), (("CR").data, 13),
   (("LF").data, 10), (("NEWLINE").data, 10),
   (("ESCAPE").data, 27), (("ESC").data, 27),
   (("TAB").data, 9),
   (("BACKSPACE").data, 127), (("BS").data, 8),
   (("DELETE").data, 127), (("DEL").data, 127),
   ((("]")).data, 29), (("SPACE").data, 32)]

/-- Model of `String.prototype.toUpperCase` for the ASCII range. -/
def toUpperJS (s : Str) : Str := s.map Char.toUpper

/-- Is the string a single character in the range `A`-`Z`?  This is the
test `/^[A-Z]$/.test(normalizedLetter)` from the source. -/
def isSingleAZ : Str → Bool
  | [c] => 'A' ≤ c && c ≤ 'Z'
  | _ => false

/-- Code of the first character, `charCodeAt(0)` on a nonempty string. -/
def headCode : Str → Nat
  | [] => 0
  | c :: _ => c.toNat

/-- The message of the `InvalidKeyError` raised by `send`. -/
def invalidKeyMsg (letter : Str) : Str :=
  ("Invalid key: \"").data ++ letter ++
  ("\". Use a single letter (A-Z) for control characters, or a special key name (ENTER, ESC, TAB, BACKSPACE, etc.)").data

/-- Key resolution from `SendControlCharacter.send`: first a case-insensitive
special-key-table lookup, then the literal `]`, then a single letter A-Z
resolved to its alphabet position, and otherwise the `InvalidKeyError`. -/
def resolveKey (letter : Str) : Except Str Nat :=
  match List.lookup (toUpperJS letter) SPECIAL_KEYS with
  | some code => .ok code
  | none =>
    if letter = (("]")).data then .ok 29
    else if isSingleAZ (toUpperJS letter) then .ok (headCode (toUpperJS letter) - 64)
    else .error (invalidKeyMsg letter)

/-- An input is accepted exactly when one of the three resolution steps
applies. -/
def acceptedKey (letter : Str) : Bool :=
  (List.lookup (toUpperJS letter) SPECIAL_KEYS).isSome ||
  decide (letter = (("]")).data) || isSingleAZ (toUpperJS letter)

theorem resolveKey_of_lookup {letter : Str} {code : Nat}
    (h : List.lookup (toUpperJS letter) SPECIAL_KEYS = some code) :
    resolveKey letter = .ok code := by
  unfold resolveKey
  rw [h]

theorem resolveKey_invalid {letter : Str} (h : acceptedKey letter = false) :
    resolveKey letter = .error (invalidKeyMsg letter) := by
  unfold acceptedKey at h
  simp only [Bool.or_eq_false_iff] at h
  obtain ⟨⟨h1, h2⟩, h3⟩ := h
  have hnone : List.lookup (toUpperJS letter) SPECIAL_KEYS = none :=
    Option.not_isSome_iff_eq_none.mp (by rw [h1]; exact Bool.false_ne_true)
  have hne : letter ≠ (("]")).data := of_decide_eq_false h2
  unfold resolveKey
  rw [hnone, if_neg hne, h3]
  simp

theorem lookup_singleton_none {c : Char} (hne : c ≠ ']') :
    ∀ es : List (Str × Nat), (∀ p ∈ es, p.1 = [']'] ∨ 2 ≤ p.1.length) →
      List.lookup [c] es = none := by
  intro es
  induction es with
  | nil => intro _; rfl
  | cons p es' ih =>
    intro h
    obtain ⟨k, v⟩ := p
    have hp := h (k, v) (by simp)
    have hbeq : (([c] : Str) == k) = false := by
      by_contra hcon
      have htrue : (([c] : Str) == k) = true := by
        cases hx : (([c] : Str) == k) with
        | false => exact absurd hx hcon
        | true => rfl
      have heq : ([c] : Str) = k := eq_of_beq htrue
      rcases hp with h1 | h1
      · have h1' : k = [']'] := h1
        rw [h1'] at heq
        have : c = ']' := by simpa using heq
        exact hne this
      · have h1' : 2 ≤ k.length := h1
        have := congrArg List.length heq
        simp at this
        omega
    simp only [List.lookup, hbeq, Bool.false_eq_true, if_false]
    exact ih fun q hq => h q (by simp [hq])

theorem singleAZ_not_special {c : Char} (h1 : 'A' ≤ c) (h2 : c ≤ 'Z') :
    List.lookup [c] SPECIAL_KEYS = none := by
  have hne : c ≠ ']' := by
    intro h
    subst h
    exact absurd h2 (by decide)
  exact lookup_singleton_none hne SPECIAL_KEYS (by decide)

theorem toUpperJS_singleton (c : Char) : toUpperJS [c] = [c.toUpper] := rfl

theorem resolveKey_letter {c : Char} (h1 : 'A' ≤ c.toUpper) (h2 : c.toUpper ≤ 'Z') :
    resolveKey [c] = .ok (c.toUpper.toNat - 64) := by
  unfold resolveKey
  rw [toUpperJS_singleton, singleAZ_not_special h1 h2]
  have hcDistinct : c ≠ ']' := by
    intro h
    subst h
    exact absurd h2 (by decide)
  rw [if_neg (show ([c] : Str) ≠ (("]")).data by
    intro h
    rw [show (("]")).data = [']'] from rfl] at h
    simp at h
    exact hcDistinct h)]
  have hAZ : isSingleAZ [c.toUpper] = true := by
    simp [isSingleAZ, h1, h2]
  rw [if_pos hAZ]
  rfl

end KeyMapper

theorem resolveKey_special {letter key : Str} {code : Nat}
    (h : toUpperJS letter = key)
    (hk : List.lookup key SPECIAL_KEYS = some code) :
    resolveKey letter = .ok code := by
  unfold resolveKey
  rw [h, hk]

section Templates

/-- Template text of the targeted `send` script up to the opening quote of
the interpolated session id (`src/SendControlCharacter.ts`). -/
def sendTplA : Str :=
  ("\n        tell application \"iTerm2\"\n          repeat with w in windows\n            repeat with t in tabs of w\n              repeat with s in sessions of t\n                if unique id of s is \"").data

/-- Template text after the closing quote of the session id. -/
def sendTplB : Str :=
  (" then\n                  tell s to write text (ASCII character ").data

/-- Template text after the interpolated control code, up to the opening
quote of the error message and its interpolated session id. -/
def sendTplC : Str :=
  (") newline NO\n                  return\n                end if\n              end repeat\n            end repeat\n          end repeat\n          error \"Session not found: ").data

/-- Closing template text of the targeted `send` script. -/
def sendTplD : Str :=
  ("\"\n        end tell\n      ").data

/-- The targeted `send` script: the session id is interpolated only after
`escapeForAppleScriptString`. -/
def sendScriptTargeted (sessionId : Str) (controlCode : Nat) : Str :=
  sendTplA ++ escapeForAppleScriptString sessionId ++ '"' :: sendTplB ++
  natToDec controlCode ++ sendTplC ++ escapeForAppleScriptString sessionId ++ sendTplD

/-- Opening template text of the foreground `send` script. -/
def sendFgTplA : Str :=
  ("\n        tell application \"iTerm2\"\n          tell front window\n            tell current session of current tab\n              write text (ASCII character ").data

/-- Closing template text of the foreground `send` script. -/
def sendFgTplB : Str :=
  (") newline NO\n            end tell\n          end tell\n        end tell\n      ").data

/-- The foreground `send` script. -/
def sendScriptForeground (controlCode : Nat) : Str :=
  sendFgTplA ++ natToDec controlCode ++ sendFgTplB

/-- Model of `SendControlCharacter.send`: resolve the key (raising
`InvalidKeyError` before any script is built), build the script for the
stored target, then run it through the subprocess collaborator
`execCommand`.  The first component collects the commands handed to the
collaborator; the second is the result.  An execution failure is wrapped
in the `KeySendError` text. -/
def send (execCommand : Str → Except Str Unit) (sessionId : Option Str)
    (letter : Str) : List Str × Except Str Unit :=
  match resolveKey letter with
  | .error msg => ([], .error msg)
  | .ok controlCode =>
    let ascript : Str :=
      match sessionId with
      | some sid =>
        if sid = [] then sendScriptForeground controlCode
        else sendScriptTargeted sid controlCode
      | none => sendScriptForeground controlCode
    let cmd := buildOsascriptCommand ascript
    match execCommand cmd with
    | .ok _ => ([cmd], .ok ())
    | .error e => ([cmd], .error ((("Failed to send key: ")).data ++ e))

/-- Template text of the targeted `retrieveBuffer` script up to the opening
quote of the session id (current `src/TtyOutputReader.ts`). -/
def rbTplA : Str :=
  ("\n        tell application \"iTerm2\"\n          repeat with w in windows\n            repeat with t in tabs of w\n              repeat with s in sessions of t\n                if unique id of s is \"").data

/-- Template text between the two session-id interpolations of
`retrieveBuffer`. -/
def rbTplB : Str :=
  (" then\n                  return contents of s\n                end if\n              end repeat\n            end repeat\n          end repeat\n          error \"Session not found: ").data

/-- Closing template text of the `retrieveBuffer` script. -/
def rbTplC : Str :=
  ("\"\n        end tell\n      ").data

/-- The targeted `retrieveBuffer` script of the current reader: the session
id is interpolated only after `escapeForAppleScriptString`. -/
def retrieveBufferScript (sessionId : Str) : Str :=
  rbTplA ++ escapeForAppleScriptString sessionId ++ '"' :: rbTplB ++
  escapeForAppleScriptString sessionId ++ rbTplC

/-- The targeted `retrieveBuffer` script of the legacy reader variant, which
interpolates the raw session id without escaping. -/
def retrieveBufferScriptLegacy (sessionId : Str) : Str :=
  rbTplA ++ sessionId ++ '"' :: rbTplB ++ sessionId ++ rbTplC

/-- The profile clause of `WindowTabManager`:
`profile ? `with profile "${profile}"` : 'with default profile'`,
with the raw profile text interpolated (no escaping in the source). -/
def profileClause (profile : Option Str) : Str :=
  match profile with
  | some p =>
    if p = [] then ("with default profile").data
    else ("with profile \"").data ++ p ++ ['"']
  | none => ("with default profile").data

/-- Opening template text of the `createWindow` script. -/
def cwTplA : Str :=
  ("\n      tell application \"iTerm2\"\n        set newWindow to (create window ").data

/-- Closing template text of the `createWindow` script. -/
def cwTplB : Str :=
  (")\n        set newSession to current session of current tab of newWindow\n        set sessionId to unique id of newSession\n        set windowId to id of newWindow\n        return sessionId & \"<<:SEP:>>\" & windowId\n      end tell\n    ").data

/-- The `createWindow` script of `WindowTabManager.createWindow`. -/
def createWindowScript (profile : Option Str) : Str :=
  cwTplA ++ profileClause profile ++ cwTplB

/-- Template pieces of the `createTab` script for an explicit window id. -/
def ctTpl1 : Str :=
  ("\n        tell application \"iTerm2\"\n          set targetWindow to missing value\n          repeat with w in windows\n            if id of w is ").data

/-- Template piece before the second window-id interpolation. -/
def ctTpl2 : Str :=
  (" then\n              set targetWindow to w\n              exit repeat\n            end if\n          end repeat\n\n          if targetWindow is missing value then\n            error \"Window not found with ID: ").data

/-- Template piece before the profile clause. -/
def ctTpl3 : Str :=
  ("\"\n          end if\n\n          tell targetWindow\n            set newTab to (create tab ").data

/-- Template piece before the third window-id interpolation. -/
def ctTpl4 : Str :=
  (")\n            set newSession to current session of newTab\n            set sessionId to unique id of newSession\n            set tabIdx to 0\n            set tabCount to count of tabs\n            repeat with i from 1 to tabCount\n              if item i of tabs is newTab then\n                set tabIdx to i - 1\n                exit repeat\n              end if\n            end repeat\n            return sessionId & \"<<:SEP:>>\" & ").data

/-- Closing template piece of the `createTab` script. -/
def ctTpl5 : Str :=
  (" & \"<<:SEP:>>\" & tabIdx\n          end tell\n        end tell\n      ").data

/-- The `createTab` script of `WindowTabManager.createTab` for an explicit
window id: the window id and the raw profile clause are interpolated. -/
def createTabScriptById (windowId : Int) (profile : Option Str) : Str :=
  ctTpl1 ++ intToDec windowId ++ ctTpl2 ++ intToDec windowId ++ ctTpl3 ++
  profileClause profile ++ ctTpl4 ++ intToDec windowId ++ ctTpl5

end Templates

section OutputReader

/-- The line-feed separator used by the output reader and the preview
trimming. -/
def nlStr : Str := ['\n']

/-- Model of `TtyOutputReader.call` from the current `src/TtyOutputReader.ts`
applied to the buffer text the script returned: with a falsy line count the
whole buffer is returned, otherwise `lines.slice(-linesOfOutput)` rejoined
with line feeds. -/
def ttyCall (buffer : Str) (linesOfOutput : Option Nat) : Str :=
  match linesOfOutput with
  | none => buffer
  | some n =>
    if n = 0 then buffer
    else
      let lines := splitOnSep nlStr buffer
      joinSep nlStr (lines.drop (lines.length - n))

/-- Model of the legacy `TtyOutputReader.call` variant, which uses
`lines.slice(-linesOfOutput - 1)` and therefore keeps one extra line. -/
def ttyCallLegacy (buffer : Str) (linesOfOutput : Option Nat) : Str :=
  match linesOfOutput with
  | none => buffer
  | some n =>
    if n = 0 then buffer
    else
      let lines := splitOnSep nlStr buffer
      joinSep nlStr (lines.drop (lines.length - (n + 1)))

end OutputReader

section SessionRegistry

/-- Decoded session record (`SessionInfo` of `src/SessionManager.ts`); the
numeric fields are produced by `parseInt` and may be `NaN`, modelled as
`none`. -/
structure SessionInfo where
  sessionId : Str
  name : Str
  windowName : Str
  windowId : Option Int
  tabIndex : Option Int
  tty : Str
  profile : Str
  isCurrent : Bool
  isProcessing : Bool
  preview : Str
deriving DecidableEq, Repr

/-- The private field separator of the session registry. -/
def FIELD_SEP : Str := ("<<:FIELD:>>").data

/-- The private record separator of the session registry. -/
def RECORD_SEP : Str := ("<<:RECORD:>>").data

/-- Decoding of one record block (the loop body of
`SessionManager.parseSessionOutput`): split on the field separator, discard
the block when fewer than 9 fields are produced, otherwise assign the first
9 fields positionally and join any remaining fields back into the preview,
which is reduced to its last 5 lines and trimmed. -/
def decodeBlock (block : Str) : Option SessionInfo :=
  let parts := splitOnSep FIELD_SEP block
  if 9 ≤ parts.length then
    let preview := joinSep FIELD_SEP (parts.drop 9)
    let previewLines := splitOnSep nlStr preview
    let lastLines := trimJS (joinSep nlStr (previewLines.drop (previewLines.length - 5)))
    some {
      sessionId := trimJS (parts.getD 0 []),
      name := trimJS (parts.getD 1 []),
      windowName := trimJS (parts.getD 2 []),
      windowId := parseIntJS (trimJS (parts.getD 3 [])),
      tabIndex := parseIntJS (trimJS (parts.getD 4 [])),
      tty := trimJS (parts.getD 5 []),
      profile := trimJS (parts.getD 6 []),
      isCurrent := decide (trimJS (parts.getD 7 []) = (("true")).data),
      isProcessing := decide (trimJS (parts.getD 8 []) = (("true")).data),
      preview := lastLines }
  else none

/-- Model of `SessionManager.parseSessionOutput`: empty input decodes to the
empty list; otherwise split on the record separator, keep the blocks whose
trimmed text is nonempty, and decode each, dropping malformed blocks. -/
def parseSessionOutput (output : Str) : List SessionInfo :=
  if output = [] then []
  else
    ((splitOnSep RECORD_SEP output).filter fun b => decide (trimJS b ≠ [])).filterMap
      decodeBlock

/-- Encoder-side session data as the `listSessions` AppleScript sees it:
each session contributes its id, name, window name, window id, zero-based
tab index, tty, profile name, two booleans and a preview text. -/
structure RawSession where
  sessionId : Str
  name : Str
  windowName : Str
  windowId : Int
  tabIndex : Int
  tty : Str
  profile : Str
  isCurrent : Bool
  isProcessing : Bool
  preview : Str
deriving DecidableEq, Repr

/-- AppleScript coercion of a boolean into text. -/
def boolStr (b : Bool) : Str := if b then (("true")).data else (("false")).data

/-- The ten serialized fields of one record, in the order emitted by the
`listSessions` script. -/
def serializedFields (r : RawSession) : List Str :=
  [r.sessionId, r.name, r.windowName, intToDec r.windowId, intToDec r.tabIndex,
   r.tty, r.profile, boolStr r.isCurrent, boolStr r.isProcessing, r.preview]

/-- One record body: the ten fields joined by the field separator, as the
`listSessions` script emits them. -/
def encodeBody (r : RawSession) : Str := joinSep FIELD_SEP (serializedFields r)

/-- One full record: the body followed by the record separator. -/
def encodeRecord (r : RawSession) : Str := encodeBody r ++ RECORD_SEP

/-- The full script output for a list of sessions. -/
def encodeSessions (rs : List RawSession) : Str := (rs.map encodeRecord).flatten

/-- The preview transformation applied by the decoder: last five lines,
trimmed. -/
def previewLast5 (p : Str) : Str :=
  let previewLines := splitOnSep nlStr p
  trimJS (joinSep nlStr (previewLines.drop (previewLines.length - 5)))

/-- The decoded record expected for an encoded raw session. -/
def decodedView (r : RawSession) : SessionInfo :=
  { sessionId := r.sessionId, name := r.name, windowName := r.windowName,
    windowId := some r.windowId, tabIndex := some r.tabIndex,
    tty := r.tty, profile := r.profile, isCurrent := r.isCurrent,
    isProcessing := r.isProcessing, preview := previewLast5 r.preview }

/-- Side conditions for a faithful round trip: no serialized field contains
the field separator, the first nine serialized fields are trim-invariant,
and the record separator does not occur in the encoded body. -/
def recordOk (r : RawSession) : Bool :=
  ((serializedFields r).all fun f => !(hasOccur FIELD_SEP f)) &&
  (((serializedFields r).take 9).all fun f => decide (trimJS f = f)) &&
  !(hasOccur RECORD_SEP (encodeBody r))

/-- The message of `SessionNotFoundError` raised by
`SessionManager.getSession`. -/
def notFoundMsg (sessions : List SessionInfo) (sessionId : Str) : Str :=
  ("Session not found: ").data ++ sessionId ++ (". Available sessions: ").data ++
  joinSep ((", ")).data (sessions.map SessionInfo.sessionId)

/-- Model of `SessionManager.getSession` applied to the result of
`listSessions`: linear search by session id, with `SessionNotFoundError`
listing all known identifiers on failure. -/
def getSession (sessions : List SessionInfo) (sessionId : Str) :
    Except Str SessionInfo :=
  match sessions.find? fun s => decide (s.sessionId = sessionId) with
  | some s => .ok s
  | none => .error (notFoundMsg sessions sessionId)

end SessionRegistry

section RegistryFacts

theorem FIELD_SEP_ne_nil : FIELD_SEP ≠ [] := by decide

theorem RECORD_SEP_ne_nil : RECORD_SEP ≠ [] := by decide

theorem FIELD_SEP_borderFree : borderFree FIELD_SEP := by
  unfold borderFree
  decide

theorem RECORD_SEP_borderFree : borderFree RECORD_SEP := by
  unfold borderFree
  decide

theorem nlStr_ne_nil : nlStr ≠ [] := by decide

theorem nlStr_borderFree : borderFree nlStr := by
  unfold borderFree
  decide

theorem decide_boolStr (b : Bool) :
    decide (boolStr b = ['t', 'r', 'u', 'e']) = b := by
  cases b <;> decide

theorem serializedFields_no_FS {r : RawSession} (h : recordOk r = true) :
    ∀ l ∈ serializedFields r, hasOccur FIELD_SEP l = false := by
  unfold recordOk at h
  simp only [Bool.and_eq_true, List.all_eq_true] at h
  intro l hl
  have := h.1.1 l hl
  simpa using this

theorem serializedFields_trim {r : RawSession} (h : recordOk r = true) :
    trimJS r.sessionId = r.sessionId ∧ trimJS r.name = r.name ∧
    trimJS r.windowName = r.windowName ∧
    trimJS (intToDec r.windowId) = intToDec r.windowId ∧
    trimJS (intToDec r.tabIndex) = intToDec r.tabIndex ∧
    trimJS r.tty = r.tty ∧ trimJS r.profile = r.profile ∧
    trimJS (boolStr r.isCurrent) = boolStr r.isCurrent ∧
    trimJS (boolStr r.isProcessing) = boolStr r.isProcessing := by
  unfold recordOk at h
  simp only [Bool.and_eq_true, List.all_eq_true] at h
  have ht := h.1.2
  simp only [serializedFields, List.take, List.mem_cons, List.not_mem_nil] at ht
  refine ⟨?_, ?_, ?_, ?_, ?_, ?_, ?_, ?_, ?_⟩ <;>
    [skip; skip; skip; skip; skip; skip; skip; skip; skip] <;>
    first
    | exact of_decide_eq_true (ht r.sessionId (by tauto))
    | exact of_decide_eq_true (ht r.name (by tauto))
    | exact of_decide_eq_true (ht r.windowName (by tauto))
    | exact of_decide_eq_true (ht (intToDec r.windowId) (by tauto))
    | exact of_decide_eq_true (ht (intToDec r.tabIndex) (by tauto))
    | exact of_decide_eq_true (ht r.tty (by tauto))
    | exact of_decide_eq_true (ht r.profile (by tauto))
    | exact of_decide_eq_true (ht (boolStr r.isCurrent) (by tauto))
    | exact of_decide_eq_true (ht (boolStr r.isProcessing) (by tauto))

theorem encodeBody_no_RS {r : RawSession} (h : recordOk r = true) :
    hasOccur RECORD_SEP (encodeBody r) = false := by
  unfold recordOk at h
  simp only [Bool.and_eq_true] at h
  simpa using h.2

theorem encodeBody_parts {r : RawSession} (h : recordOk r = true) :
    splitOnSep FIELD_SEP (encodeBody r) = serializedFields r := by
  unfold encodeBody
  exact splitJoin FIELD_SEP FIELD_SEP_ne_nil FIELD_SEP_borderFree
    (serializedFields r) (by simp [serializedFields]) (serializedFields_no_FS h)

theorem decodeBlock_encodeBody {r : RawSession} (h : recordOk r = true) :
    decodeBlock (encodeBody r) = some (decodedView r) := by
  obtain ⟨t0, t1, t2, t3, t4, t5, t6, t7, t8⟩ := serializedFields_trim h
  have g0 : (serializedFields r).getD 0 [] = r.sessionId := rfl
  have g1 : (serializedFields r).getD 1 [] = r.name := rfl
  have g2 : (serializedFields r).getD 2 [] = r.windowName := rfl
  have g3 : (serializedFields r).getD 3 [] = intToDec r.windowId := rfl
  have g4 : (serializedFields r).getD 4 [] = intToDec r.tabIndex := rfl
  have g5 : (serializedFields r).getD 5 [] = r.tty := rfl
  have g6 : (serializedFields r).getD 6 [] = r.profile := rfl
  have g7 : (serializedFields r).getD 7 [] = boolStr r.isCurrent := rfl
  have g8 : (serializedFields r).getD 8 [] = boolStr r.isProcessing := rfl
  have gdrop : (serializedFields r).drop 9 = [r.preview] := rfl
  have gjoin : joinSep FIELD_SEP [r.preview] = r.preview := rfl
  unfold decodeBlock
  rw [encodeBody_parts h]
  rw [if_pos (by simp [serializedFields])]
  rw [g0, g1, g2, g3, g4, g5, g6, g7, g8, gdrop, gjoin]
  rw [t0, t1, t2, t3, t4, t5, t6, t7, t8]
  simp only [parseIntJS_intToDec, decide_boolStr]
  rfl

theorem encodeBody_trim_ne (r : RawSession) : trimJS (encodeBody r) ≠ [] := by
  have hshape : encodeBody r =
      r.sessionId ++ FIELD_SEP ++ joinSep FIELD_SEP
        [r.name, r.windowName, intToDec r.windowId, intToDec r.tabIndex,
         r.tty, r.profile, boolStr r.isCurrent, boolStr r.isProcessing,
         r.preview] := rfl
  have hmem : ('<') ∈ encodeBody r := by
    rw [hshape]
    exact List.mem_append_left _ (List.mem_append_right _ (by decide))
  exact trimJS_ne_nil_of_mem hmem (by decide)

theorem parseBodies (rs : List RawSession) (h : ∀ r ∈ rs, recordOk r = true) :
    (rs.map encodeBody).filterMap decodeBlock = rs.map decodedView := by
  induction rs with
  | nil => rfl
  | cons r rest ih =>
    simp only [List.map_cons, List.filterMap_cons,
      decodeBlock_encodeBody (h r (by simp))]
    rw [ih fun q hq => h q (by simp [hq])]

theorem encodeSessions_shape (rs : List RawSession) :
    encodeSessions rs = ((rs.map encodeBody).map (· ++ RECORD_SEP)).flatten := by
  unfold encodeSessions encodeRecord
  rw [List.map_map]
  rfl

theorem parse_encode (rs : List RawSession) (h : ∀ r ∈ rs, recordOk r = true) :
    parseSessionOutput (encodeSessions rs) = rs.map decodedView := by
  cases rs with
  | nil => rfl
  | cons r rest =>
    have houtne : encodeSessions (r :: rest) ≠ [] := by
      simp [encodeSessions, encodeRecord, RECORD_SEP]
    unfold parseSessionOutput
    rw [if_neg houtne]
    rw [encodeSessions_shape]
    rw [splitJoinTrail RECORD_SEP RECORD_SEP_ne_nil RECORD_SEP_borderFree _
      (by
        intro b hb
        obtain ⟨q, hq, rfl⟩ := List.mem_map.mp hb
        exact encodeBody_no_RS (h q hq))]
    rw [List.filter_append]
    have hkeep : ((r :: rest).map encodeBody).filter
        (fun b => decide (trimJS b ≠ [])) = (r :: rest).map encodeBody := by
      rw [List.filter_eq_self]
      intro b hb
      obtain ⟨q, hq, rfl⟩ := List.mem_map.mp hb
      simpa using encodeBody_trim_ne q
    have hdropnil : ([([] : Str)] : List Str).filter
        (fun b => decide (trimJS b ≠ [])) = [] := rfl
    rw [hkeep, hdropnil, List.append_nil]
    exact parseBodies _ h

theorem decodeBlock_short {bad : Str}
    (h : (splitOnSep FIELD_SEP bad).length < 9) : decodeBlock bad = none := by
  unfold decodeBlock
  rw [if_neg (by omega)]

theorem parse_encode_with_bad (rs1 rs2 : List RawSession) (bad : Str)
    (h : ∀ r ∈ rs1 ++ rs2, recordOk r = true)
    (hbadRS : hasOccur RECORD_SEP bad = false)
    (hbadlen : (splitOnSep FIELD_SEP bad).length < 9) :
    parseSessionOutput
        (encodeSessions rs1 ++ (bad ++ RECORD_SEP) ++ encodeSessions rs2) =
      (rs1 ++ rs2).map decodedView := by
  have hshape : encodeSessions rs1 ++ (bad ++ RECORD_SEP) ++ encodeSessions rs2 =
      (((rs1.map encodeBody ++ [bad] ++ rs2.map encodeBody)).map
        (· ++ RECORD_SEP)).flatten := by
    rw [encodeSessions_shape, encodeSessions_shape]
    simp [List.map_append, List.flatten_append]
  have houtne : encodeSessions rs1 ++ (bad ++ RECORD_SEP) ++ encodeSessions rs2 ≠ [] := by
    intro hnil
    rw [List.append_eq_nil] at hnil
    obtain ⟨hnil1, _⟩ := hnil
    rw [List.append_eq_nil] at hnil1
    obtain ⟨_, hnil2⟩ := hnil1
    rw [List.append_eq_nil] at hnil2
    exact RECORD_SEP_ne_nil hnil2.2
  unfold parseSessionOutput
  rw [if_neg houtne, hshape]
  rw [splitJoinTrail RECORD_SEP RECORD_SEP_ne_nil RECORD_SEP_borderFree _
    (by
      intro b hb
      simp only [List.append_assoc, List.mem_append, List.mem_map,
        List.mem_singleton] at hb
      rcases hb with ⟨q, hq, rfl⟩ | (rfl | ⟨q, hq, rfl⟩)
      · exact encodeBody_no_RS (h q (by simp [hq]))
      · exact hbadRS
      · exact encodeBody_no_RS (h q (by simp [hq])))]
  rw [List.filter_append, List.filter_append, List.filter_append]
  have hkeep1 : (rs1.map encodeBody).filter
      (fun b => decide (trimJS b ≠ [])) = rs1.map encodeBody := by
    rw [List.filter_eq_self]
    intro b hb
    obtain ⟨q, hq, rfl⟩ := List.mem_map.mp hb
    simpa using encodeBody_trim_ne q
  have hkeep2 : (rs2.map encodeBody).filter
      (fun b => decide (trimJS b ≠ [])) = rs2.map encodeBody := by
    rw [List.filter_eq_self]
    intro b hb
    obtain ⟨q, hq, rfl⟩ := List.mem_map.mp hb
    simpa using encodeBody_trim_ne q
  have hdropnil : ([([] : Str)] : List Str).filter
      (fun b => decide (trimJS b ≠ [])) = [] := rfl
  rw [hkeep1, hkeep2, hdropnil, List.append_nil]
  by_cases hbadtrim : trimJS bad = []
  · have hbadfilter : ([bad] : List Str).filter
        (fun b => decide (trimJS b ≠ [])) = [] := by
      simp [List.filter, hbadtrim]
    rw [hbadfilter, List.append_nil]
    rw [List.filterMap_append]
    rw [parseBodies rs1 fun q hq => h q (by simp [hq]),
      parseBodies rs2 fun q hq => h q (by simp [hq])]
    simp
  · have hbadfilter : ([bad] : List Str).filter
        (fun b => decide (trimJS b ≠ [])) = [bad] := by
      simp [List.filter, hbadtrim]
    rw [hbadfilter]
    rw [List.filterMap_append, List.filterMap_append]
    rw [parseBodies rs1 fun q hq => h q (by simp [hq]),
      parseBodies rs2 fun q hq => h q (by simp [hq])]
    simp [List.filterMap, decodeBlock_short hbadlen]

end RegistryFacts

section MoreFacts

theorem joinSep_mem_decomp (sep : Str) :
    ∀ ls (x : Str), x ∈ ls → ∃ a b, joinSep sep ls = a ++ x ++ b := by
  intro ls
  induction ls with
  | nil => intro x hx; exact absurd hx (List.not_mem_nil x)
  | cons l ls' ih =>
    intro x hx
    cases ls' with
    | nil =>
      have : x = l := by simpa using hx
      subst this
      exact ⟨[], [], by simp [joinSep]⟩
    | cons m ms =>
      rcases List.mem_cons.mp hx with rfl | hx'
      · exact ⟨[], sep ++ joinSep sep (m :: ms), by simp [joinSep]⟩
      · obtain ⟨a, b, hab⟩ := ih x hx'
        refine ⟨l ++ sep ++ a, b, ?_⟩
        show l ++ sep ++ joinSep sep (m :: ms) = l ++ sep ++ a ++ x ++ b
        rw [hab]
        simp [List.append_assoc]

theorem ws_no_RS {ws : Str} (h : ∀ c ∈ ws, isJSWhitespace c = true) :
    hasOccur RECORD_SEP ws = false := by
  by_contra hcon
  have htrue : hasOccur RECORD_SEP ws = true := by
    cases hx : hasOccur RECORD_SEP ws with
    | false => exact absurd hx hcon
    | true => rfl
  rw [show RECORD_SEP = '<' :: (("<:RECORD:>>")).data from rfl] at htrue
  have hmem : ('<') ∈ ws := head_mem_of_hasOccur htrue
  have := h ('<') hmem
  exact absurd this (by decide)

theorem splitOnSep_single_of_no_occur {sep s : Str} (hsep : sep ≠ [])
    (hocc : hasOccur sep s = false) : splitOnSep sep s = [s] := by
  unfold splitOnSep
  rw [if_neg hsep]
  rw [splitAux_no_occur sep hsep s [] s.length (Nat.le_refl _) hocc]
  simp

theorem splitOnSep_emit {sep b rest : Str} (hsep : sep ≠ [])
    (hBF : borderFree sep) (hocc : hasOccur sep b = false) :
    splitOnSep sep (b ++ sep ++ rest) = b :: splitOnSep sep rest := by
  unfold splitOnSep
  rw [if_neg hsep, if_neg hsep]
  rw [splitAux_emit sep hsep b rest [] _ (Nat.le_refl _)
    (no_mid_occur sep hBF hsep b rest hocc)]
  simp

theorem parse_ws_block (ws rest : Str) (h : ∀ c ∈ ws, isJSWhitespace c = true) :
    parseSessionOutput (ws ++ RECORD_SEP ++ rest) = parseSessionOutput rest := by
  have houtne : ws ++ RECORD_SEP ++ rest ≠ [] := by
    intro hnil
    rw [List.append_eq_nil] at hnil
    obtain ⟨hnil1, _⟩ := hnil
    rw [List.append_eq_nil] at hnil1
    exact RECORD_SEP_ne_nil hnil1.2
  have hsplit : splitOnSep RECORD_SEP (ws ++ RECORD_SEP ++ rest) =
      ws :: splitOnSep RECORD_SEP rest :=
    splitOnSep_emit RECORD_SEP_ne_nil RECORD_SEP_borderFree (ws_no_RS h)
  have htws : trimJS ws = [] := trimJS_eq_nil_of_all h
  unfold parseSessionOutput
  rw [if_neg houtne, hsplit]
  rw [List.filter_cons_of_neg (by simp [htws])]
  by_cases hrest : rest = []
  · subst hrest
    rw [if_pos rfl]
    rw [show splitOnSep RECORD_SEP [] = [[]] from rfl]
    rfl
  · rw [if_neg hrest]

theorem parse_garbage (s : Str) (hno : hasOccur RECORD_SEP s = false)
    (hshort : (splitOnSep FIELD_SEP s).length < 9) :
    parseSessionOutput s = [] := by
  by_cases hnil : s = []
  · subst hnil; rfl
  · unfold parseSessionOutput
    rw [if_neg hnil]
    rw [splitOnSep_single_of_no_occur RECORD_SEP_ne_nil hno]
    by_cases htrim : trimJS s = []
    · rw [List.filter_cons_of_neg (by simp [htrim])]
      rfl
    · rw [List.filter_cons_of_pos (by simp [htrim])]
      simp [List.filterMap, decodeBlock_short hshort]

end MoreFacts

section Claims

/-- Claim C1 (amended, claim corrected): `send` and the current
`retrieveBuffer` interpolate the caller-supplied session identifier only
after `escapeForAppleScriptString`, so the string literal holding it parses
back to exactly the identifier; but `createWindow` and `createTab`
interpolate the profile name raw, and the legacy `retrieveBuffer` variant
interpolates the session identifier raw. -/
theorem C1_escaping_amended (sid p : Str) (code : Nat) (wid : Int)
    (hp : p ≠ []) :
    (sendScriptTargeted sid code =
        sendTplA ++ escapeForAppleScriptString sid ++ '"' ::
          (sendTplB ++ natToDec code ++ sendTplC ++
            escapeForAppleScriptString sid ++ sendTplD) ∧
      readStringLiteral (escapeForAppleScriptString sid ++ '"' ::
          (sendTplB ++ natToDec code ++ sendTplC ++
            escapeForAppleScriptString sid ++ sendTplD)) =
        some (sid, sendTplB ++ natToDec code ++ sendTplC ++
          escapeForAppleScriptString sid ++ sendTplD)) ∧
    (retrieveBufferScript sid =
        rbTplA ++ escapeForAppleScriptString sid ++ '"' ::
          (rbTplB ++ escapeForAppleScriptString sid ++ rbTplC) ∧
      readStringLiteral (escapeForAppleScriptString sid ++ '"' ::
          (rbTplB ++ escapeForAppleScriptString sid ++ rbTplC)) =
        some (sid, rbTplB ++ escapeForAppleScriptString sid ++ rbTplC)) ∧
    createWindowScript (some p) =
      (cwTplA ++ ("with profile \"").data) ++ p ++ '"' :: cwTplB ∧
    createTabScriptById wid (some p) =
      (ctTpl1 ++ intToDec wid ++ ctTpl2 ++ intToDec wid ++ ctTpl3 ++
        ("with profile \"").data) ++ p ++ '"' ::
          (ctTpl4 ++ intToDec wid ++ ctTpl5) ∧
    retrieveBufferScriptLegacy sid =
      rbTplA ++ sid ++ '"' :: (rbTplB ++ sid ++ rbTplC) := by
  refine ⟨⟨?_, readStringLiteral_escaped _ _⟩,
    ⟨?_, readStringLiteral_escaped _ _⟩, ?_, ?_, ?_⟩
  · simp [sendScriptTargeted, List.append_assoc]
  · simp [retrieveBufferScript, List.append_assoc]
  · simp [createWindowScript, profileClause, hp, List.append_assoc]
  · simp [createTabScriptById, profileClause, hp, List.append_assoc]
  · simp [retrieveBufferScriptLegacy, List.append_assoc]

/-- Witness for C1 (amended) at a concrete session id containing a quote
and a concrete profile name. -/
theorem C1_escaping_amended_witness :
    readStringLiteral
        (escapeForAppleScriptString (("a\"b")).data ++ '"' ::
          (sendTplB ++ natToDec 3 ++ sendTplC ++
            escapeForAppleScriptString (("a\"b")).data ++ sendTplD)) =
      some ((("a\"b")).data,
        sendTplB ++ natToDec 3 ++ sendTplC ++
          escapeForAppleScriptString (("a\"b")).data ++ sendTplD) ∧
    createWindowScript (some (("P1")).data) =
      (cwTplA ++ ("with profile \"").data) ++ (("P1")).data ++ '"' :: cwTplB := by
  have h := C1_escaping_amended (("a\"b")).data (("P1")).data 3 42 (by decide)
  exact ⟨h.1.2, h.2.2.1⟩

/-- Counterexample for claim C1 as stated: `createWindow` interpolates the
raw profile name into the script, and a profile containing a double quote
breaks out of the string-literal context (the literal parses back only the
prefix before the quote, not the whole profile). -/
theorem C1_counterexample :
    createWindowScript (some (("a\"b")).data) =
      (cwTplA ++ ("with profile \"").data) ++ (("a\"b")).data ++ '"' :: cwTplB ∧
    readStringLiteral ((("a\"b")).data ++ '"' :: cwTplB) ≠
      some ((("a\"b")).data, '"' :: cwTplB) ∧
    readStringLiteral
        (escapeForAppleScriptString (("a\"b")).data ++ '"' :: cwTplB) =
      some ((("a\"b")).data, cwTplB) := by
  refine ⟨?_, by decide, readStringLiteral_escaped _ _⟩
  simp [createWindowScript, profileClause, List.append_assoc]

/-- Claim C2: key resolution of `send` — case-insensitive special-name
lookup, the literal `]`, single letters A-Z by alphabet position, and
`InvalidKeyError` naming the offending input otherwise. -/
theorem C2_key_resolution (s : Str) :
    (toUpperJS s = (("ENTER")).data → resolveKey s = .ok 13) ∧
    (toUpperJS s = (("RETURN")).data → resolveKey s = .ok 13) ∧
    (toUpperJS s = (("CR")).data → resolveKey s = .ok 13) ∧
    (toUpperJS s = (("LF")).data → resolveKey s = .ok 10) ∧
    (toUpperJS s = (("NEWLINE")).data → resolveKey s = .ok 10) ∧
    (toUpperJS s = (("ESC")).data → resolveKey s = .ok 27) ∧
    (toUpperJS s = (("ESCAPE")).data → resolveKey s = .ok 27) ∧
    (toUpperJS s = (("TAB")).data → resolveKey s = .ok 9) ∧
    (toUpperJS s = (("BACKSPACE")).data → resolveKey s = .ok 127) ∧
    (toUpperJS s = (("DELETE")).data → resolveKey s = .ok 127) ∧
    (toUpperJS s = (("DEL")).data → resolveKey s = .ok 127) ∧
    (toUpperJS s = (("BS")).data → resolveKey s = .ok 8) ∧
    (toUpperJS s = (("SPACE")).data → resolveKey s = .ok 32) ∧
    (s = (("]")).data → resolveKey s = .ok 29) ∧
    (∀ c : Char, s = [c] → 'A' ≤ c.toUpper → c.toUpper ≤ 'Z' →
      resolveKey s = .ok (c.toUpper.toNat - 64)) ∧
    (acceptedKey s = false →
      resolveKey s = .error (invalidKeyMsg s) ∧
      ∃ pre post, invalidKeyMsg s = pre ++ s ++ post) := by
  refine ⟨fun h => resolveKey_special h (by decide),
    fun h => resolveKey_special h (by decide),
    fun h => resolveKey_special h (by decide),
    fun h => resolveKey_special h (by decide),
    fun h => resolveKey_special h (by decide),
    fun h => resolveKey_special h (by decide),
    fun h => resolveKey_special h (by decide),
    fun h => resolveKey_special h (by decide),
    fun h => resolveKey_special h (by decide),
    fun h => resolveKey_special h (by decide),
    fun h => resolveKey_special h (by decide),
    fun h => resolveKey_special h (by decide),
    fun h => resolveKey_special h (by decide),
    fun h => ?_, fun c hc h1 h2 => ?_, fun h => ?_⟩
  · subst h
    exact @resolveKey_special (("]")).data (("]")).data 29 rfl (by decide)
  · subst hc
    exact resolveKey_letter h1 h2
  · exact ⟨resolveKey_invalid h,
      ("Invalid key: \"").data,
      ("\". Use a single letter (A-Z) for control characters, or a special key name (ENTER, ESC, TAB, BACKSPACE, etc.)").data,
      rfl⟩

/-- Witness for C2 at `"enter"`, `"m"`, `"]"` and the invalid input
`"123"`. -/
theorem C2_key_resolution_witness :
    resolveKey (("enter")).data = .ok 13 ∧
    resolveKey (("m")).data = .ok (('m').toUpper.toNat - 64) ∧
    ('m').toUpper.toNat - 64 = 13 ∧
    resolveKey (("]")).data = .ok 29 ∧
    resolveKey (("123")).data = .error (invalidKeyMsg (("123")).data) := by
  refine ⟨(C2_key_resolution (("enter")).data).1 (by decide), ?_, by decide, ?_, ?_⟩
  · have h := C2_key_resolution (("m")).data
    exact h.2.2.2.2.2.2.2.2.2.2.2.2.2.2.1 'm' rfl (by decide) (by decide)
  · have h := C2_key_resolution (("]")).data
    exact h.2.2.2.2.2.2.2.2.2.2.2.2.2.1 rfl
  · have h := C2_key_resolution (("123")).data
    exact (h.2.2.2.2.2.2.2.2.2.2.2.2.2.2.2 (by decide)).1

/-- Claim C3 (amended, claim corrected): with a positive line count the
current `TtyOutputReader.call` returns exactly the trailing `lineCount`
lines of the line-feed-split buffer (the whole buffer when more lines are
requested than exist, or when the count is zero or absent). -/
theorem C3_read_trailing_lines (ls : List Str) (b : Str) (n : Nat)
    (hls : ls ≠ []) (hocc : ∀ l ∈ ls, hasOccur nlStr l = false)
    (hn : 0 < n) :
    ttyCall (joinSep nlStr ls) (some n) =
      joinSep nlStr (ls.drop (ls.length - n)) ∧
    (n ≤ ls.length → (ls.drop (ls.length - n)).length = n) ∧
    (ls.length ≤ n →
      ttyCall (joinSep nlStr ls) (some n) = joinSep nlStr ls) ∧
    ttyCall b none = b ∧ ttyCall b (some 0) = b := by
  have hsplit : splitOnSep nlStr (joinSep nlStr ls) = ls :=
    splitJoin nlStr nlStr_ne_nil nlStr_borderFree ls hls hocc
  have hmain : ttyCall (joinSep nlStr ls) (some n) =
      joinSep nlStr (ls.drop (ls.length - n)) := by
    simp only [ttyCall]
    rw [if_neg (show ¬ n = 0 by omega), hsplit]
  refine ⟨hmain, ?_, ?_, rfl, rfl⟩
  · intro hle
    rw [List.length_drop]
    omega
  · intro hge
    rw [hmain]
    have hz : ls.length - n = 0 := by omega
    rw [hz, List.drop_zero]

/-- Witness for C3 (amended) on the five-line buffer of the spec example. -/
theorem C3_read_trailing_lines_witness :
    ttyCall (joinSep nlStr [['a'], ['b'], ['c'], ['d'], ['e']]) (some 3) =
      joinSep nlStr ([['a'], ['b'], ['c'], ['d'], ['e']].drop
        ([['a'], ['b'], ['c'], ['d'], ['e']].length - 3)) ∧
    joinSep nlStr ([['a'], ['b'], ['c'], ['d'], ['e']].drop
        ([['a'], ['b'], ['c'], ['d'], ['e']].length - 3)) = (("c\nd\ne")).data ∧
    joinSep nlStr [['a'], ['b'], ['c'], ['d'], ['e']] = (("a\nb\nc\nd\ne")).data := by
  have h := C3_read_trailing_lines [['a'], ['b'], ['c'], ['d'], ['e']] [] 3
    (by decide) (by decide) (by decide)
  exact ⟨h.1, by decide, by decide⟩

/-- Counterexample for claim C3 as stated: the legacy
`TtyOutputReader.call` variant (`lines.slice(-linesOfOutput - 1)`) returns
four lines, not three, on the spec example buffer, while the current
variant returns three. -/
theorem C3_counterexample :
    ttyCallLegacy (("a\nb\nc\nd\ne")).data (some 3) = (("b\nc\nd\ne")).data ∧
    (("b\nc\nd\ne")).data ≠ (("c\nd\ne")).data ∧
    ttyCall (("a\nb\nc\nd\ne")).data (some 3) = (("c\nd\ne")).data := by
  exact ⟨by decide, by decide, by decide⟩

end Claims

section ClaimsRegistry

/-- Concrete raw session used by witnesses: multi-line preview with six
lines, exercising the reduction to the last five. -/
def rawA : RawSession :=
  { sessionId := (("s1")).data, name := (("n1")).data,
    windowName := (("w")).data, windowId := 7, tabIndex := 0,
    tty := (("tty1")).data, profile := (("p1")).data,
    isCurrent := true, isProcessing := false,
    preview := (("l1\nl2\nl3\nl4\nl5\nl6")).data }

/-- Second concrete raw session used by witnesses. -/
def rawB : RawSession :=
  { sessionId := (("s2")).data, name := (("n2")).data,
    windowName := (("w2")).data, windowId := 12, tabIndex := 1,
    tty := (("tty2")).data, profile := (("p2")).data,
    isCurrent := false, isProcessing := true,
    preview := (("ok")).data }

/-- Claim C4: serializing records in the registry's field order with the
`<<:FIELD:>>` and `<<:RECORD:>>` separators and decoding with
`parseSessionOutput` yields the same number of records with the same field
values, the preview being reduced to its last five lines (and trimmed, as
the decoder does). -/
theorem C4_round_trip (rs : List RawSession)
    (h : ∀ r ∈ rs, recordOk r = true) :
    parseSessionOutput (encodeSessions rs) = rs.map decodedView ∧
    (parseSessionOutput (encodeSessions rs)).length = rs.length := by
  have hmain := parse_encode rs h
  exact ⟨hmain, by rw [hmain, List.length_map]⟩

/-- Witness for C4 with zero, one and two records, one of which has a
six-line preview that decodes to its last five lines. -/
theorem C4_round_trip_witness :
    parseSessionOutput (encodeSessions [rawA, rawB]) =
      [decodedView rawA, decodedView rawB] ∧
    parseSessionOutput (encodeSessions [rawA]) = [decodedView rawA] ∧
    parseSessionOutput (encodeSessions []) = [] ∧
    (decodedView rawA).preview = (("l2\nl3\nl4\nl5\nl6")).data := by
  refine ⟨(C4_round_trip [rawA, rawB] (by decide)).1,
    (C4_round_trip [rawA] (by decide)).1,
    (C4_round_trip [] (by decide)).1, by decide⟩

/-- Claim C5: a record block with fewer than nine fields is discarded
without error and the sibling well-formed blocks decode exactly as they
would without it. -/
theorem C5_malformed_block_dropped (rs1 rs2 : List RawSession) (bad : Str)
    (h : ∀ r ∈ rs1 ++ rs2, recordOk r = true)
    (hbadRS : hasOccur RECORD_SEP bad = false)
    (hbadlen : (splitOnSep FIELD_SEP bad).length < 9) :
    parseSessionOutput
        (encodeSessions rs1 ++ (bad ++ RECORD_SEP) ++ encodeSessions rs2) =
      (rs1 ++ rs2).map decodedView :=
  parse_encode_with_bad rs1 rs2 bad h hbadRS hbadlen

/-- Witness for C5: a malformed block between two well-formed records. -/
theorem C5_malformed_block_dropped_witness :
    parseSessionOutput
        (encodeSessions [rawA] ++ ((("oops")).data ++ RECORD_SEP) ++
          encodeSessions [rawB]) =
      ([rawA] ++ [rawB]).map decodedView ∧
    ([rawA] ++ [rawB]).map decodedView = [decodedView rawA, decodedView rawB] := by
  refine ⟨C5_malformed_block_dropped [rawA] [rawB] (("oops")).data
    (by decide) (by decide) (by decide), by decide⟩

/-- Claim C6 (amended, claim corrected): the decoder checks only the field
count, so a surviving record can have an empty `sessionId` (see the
counterexample); but every record decoded from the registry encoding of raw
sessions whose session ids are nonempty (and separator-free and
trim-invariant, per `recordOk`) has a nonempty `sessionId`. -/
theorem C6_sessionId_nonempty_amended (rs : List RawSession)
    (h : ∀ r ∈ rs, recordOk r = true ∧ r.sessionId ≠ []) :
    ∀ s ∈ parseSessionOutput (encodeSessions rs), s.sessionId ≠ [] := by
  intro s hs
  rw [parse_encode rs fun r hr => (h r hr).1] at hs
  obtain ⟨q, hq, rfl⟩ := List.mem_map.mp hs
  exact (h q hq).2

/-- Witness for C6 (amended). -/
theorem C6_sessionId_nonempty_witness :
    (decodedView rawA).sessionId ≠ [] ∧
    parseSessionOutput (encodeSessions [rawA]) = [decodedView rawA] := by
  constructor
  · have hmem : decodedView rawA ∈ parseSessionOutput (encodeSessions [rawA]) := by
      decide
    exact C6_sessionId_nonempty_amended [rawA] (by decide) (decodedView rawA) hmem
  · decide

/-- Counterexample for claim C6 as stated: a block consisting of nine field
separators splits into ten empty fields, survives the field-count check,
and decodes to a record whose `sessionId` is empty. -/
theorem C6_counterexample :
    (parseSessionOutput ((List.replicate 9 FIELD_SEP).flatten)).map
      SessionInfo.sessionId = [[]] := by
  decide

/-- Claim C8: `getSession` returns the record whose `sessionId` matches,
and otherwise fails with a `SessionNotFoundError` whose message contains
every listed session id. -/
theorem C8_get_session (sessions : List SessionInfo) (sessionId : Str) :
    ((∃ s, s ∈ sessions ∧ s.sessionId = sessionId) →
      ∃ s, getSession sessions sessionId = .ok s ∧ s ∈ sessions ∧
        s.sessionId = sessionId) ∧
    ((∀ s, s ∈ sessions → s.sessionId ≠ sessionId) →
      getSession sessions sessionId = .error (notFoundMsg sessions sessionId) ∧
      ∀ s, s ∈ sessions → ∃ pre post,
        notFoundMsg sessions sessionId = pre ++ s.sessionId ++ post) := by
  constructor
  · rintro ⟨s0, hmem, hid⟩
    unfold getSession
    cases hfind : sessions.find? fun s => decide (s.sessionId = sessionId) with
    | none =>
      exfalso
      have := List.find?_eq_none.mp hfind s0 hmem
      simp [hid] at this
    | some s =>
      refine ⟨s, rfl, List.mem_of_find?_eq_some hfind, ?_⟩
      have := List.find?_some hfind
      simpa using this
  · intro hnone
    have hfind : (sessions.find? fun s => decide (s.sessionId = sessionId)) = none := by
      rw [List.find?_eq_none]
      intro s hs
      simpa using hnone s hs
    unfold getSession
    rw [hfind]
    refine ⟨rfl, ?_⟩
    intro s hs
    have hmem : s.sessionId ∈ sessions.map SessionInfo.sessionId :=
      List.mem_map_of_mem _ hs
    obtain ⟨a, b, hab⟩ := joinSep_mem_decomp ((", ")).data _ _ hmem
    refine ⟨("Session not found: ").data ++ sessionId ++
      (". Available sessions: ").data ++ a, b, ?_⟩
    unfold notFoundMsg
    rw [hab]
    simp [List.append_assoc]

/-- Concrete decoded session records used by the C8 witness. -/
def sessA : SessionInfo :=
  { sessionId := (("s1")).data, name := [], windowName := [],
    windowId := none, tabIndex := none, tty := [], profile := [],
    isCurrent := false, isProcessing := false, preview := [] }

/-- Second concrete decoded session record used by the C8 witness. -/
def sessB : SessionInfo :=
  { sessionId := (("s2")).data, name := [], windowName := [],
    windowId := none, tabIndex := none, tty := [], profile := [],
    isCurrent := false, isProcessing := false, preview := [] }

/-- Witness for C8: a missing id against sessions `s1`, `s2` yields the
error whose message contains both ids. -/
theorem C8_get_session_witness :
    getSession [sessA, sessB] (("missing-id")).data =
      .error (notFoundMsg [sessA, sessB] (("missing-id")).data) ∧
    (∃ pre post, notFoundMsg [sessA, sessB] (("missing-id")).data =
      pre ++ sessA.sessionId ++ post) ∧
    (∃ pre post, notFoundMsg [sessA, sessB] (("missing-id")).data =
      pre ++ sessB.sessionId ++ post) := by
  have h := (C8_get_session [sessA, sessB] (("missing-id")).data).2 (by decide)
  exact ⟨h.1, h.2 sessA (by simp), h.2 sessB (by simp)⟩

/-- Claim C10: the decoder is total by construction (it is a plain function
in this model, mirroring the exception-free source loop); the empty string
decodes to the empty list, a whitespace-only block between record
separators is skipped without affecting the rest, and separator-free
garbage with fewer than nine fields decodes to the empty list. -/
theorem C10_decoder_total (ws rest garbage : Str)
    (hws : ∀ c ∈ ws, isJSWhitespace c = true)
    (hno : hasOccur RECORD_SEP garbage = false)
    (hshort : (splitOnSep FIELD_SEP garbage).length < 9) :
    parseSessionOutput [] = [] ∧
    parseSessionOutput (ws ++ RECORD_SEP ++ rest) = parseSessionOutput rest ∧
    parseSessionOutput garbage = [] :=
  ⟨rfl, parse_ws_block ws rest hws, parse_garbage garbage hno hshort⟩

/-- Witness for C10 on a whitespace block and plain garbage. -/
theorem C10_decoder_total_witness :
    parseSessionOutput (([' ', '\t']) ++ RECORD_SEP ++ encodeSessions [rawB]) =
      parseSessionOutput (encodeSessions [rawB]) ∧
    parseSessionOutput (("hello world")).data = [] := by
  have h := C10_decoder_total [' ', '\t'] (encodeSessions [rawB])
    (("hello world")).data (by decide) (by decide) (by decide)
  exact ⟨h.2.1, h.2.2⟩

end ClaimsRegistry

section ClaimsSend

/-- Claim C7: an input that is neither a special-key name, `]`, nor a
single letter fails with `InvalidKeyError` before any script is built: the
subprocess collaborator receives no command at all. -/
theorem C7_invalid_rejected_before_exec (execCommand : Str → Except Str Unit)
    (sessionId : Option Str) (letter : Str) (h : acceptedKey letter = false) :
    send execCommand sessionId letter = ([], .error (invalidKeyMsg letter)) := by
  unfold send
  rw [resolveKey_invalid h]

/-- Witness for C7 at the invalid input `"123"`, with and without a target
session. -/
theorem C7_invalid_rejected_witness :
    send (fun _ => .ok ()) none (("123")).data =
      ([], .error (invalidKeyMsg (("123")).data)) ∧
    send (fun _ => .error (("boom")).data) (some (("s1")).data) (("AB")).data =
      ([], .error (invalidKeyMsg (("AB")).data)) :=
  ⟨C7_invalid_rejected_before_exec _ none _ (by decide),
   C7_invalid_rejected_before_exec _ (some (("s1")).data) _ (by decide)⟩

/-- Claim C9: the script-literal escaping doubles backslashes then escapes
quotes (character-wise `asEscChar`), and interpreting the escaped text as a
string literal reproduces the original; the shell escaping replaces each
single quote by the quote-backslash-quote-quote sequence, and the escaped
text substituted between single quotes parses as one shell word equal to
the original string. -/
theorem C9_escaping_contracts (s r : Str) :
    escapeForAppleScriptString s = s.flatMap asEscChar ∧
    readStringLiteral (escapeForAppleScriptString s ++ '"' :: r) = some (s, r) ∧
    escapeForShellSingleQuote s =
      s.flatMap (fun c => if c = squote then [squote, '\\', squote, squote] else [c]) ∧
    shellParseWord (squote :: escapeForShellSingleQuote s ++ [squote]) = some s :=
  ⟨escapeForAppleScriptString_flatMap s, readStringLiteral_escaped s r, rfl,
   shellParseWord_escaped s⟩

end ClaimsSend
